import Mathlib

/-
Verification of the configbuilder repository (src/configs/config.py and
src/main.py) against its natural-language specification.

The code is a thin layer over the omegaconf structured-merge library.
The embedding below models:
  - configuration trees (`Value`): omegaconf DictConfig nodes as ordered
    association lists (python dicts preserve insertion order and have
    unique keys), scalar leaves carrying their raw string form
    (yaml scalar typing is orthogonal to the merge-order claims);
  - `om.merge` (`merge`), `OmegaConf.update` on a dotted path
    (`setPathEntries`), `om.from_dotlist` (`from_dotlist`) and value
    lookup along a dotted path (`getPath`);
  - the error-flow of `BaseConfig.load` / `BaseConfig.new` over an
    explicit python-exception model (`PyErr`), with the filesystem and
    parsing effects supplied as oracles;
  - the pure string helpers `clean_opt`, `is_url` and the two path
    resolvers `path_glob`, `path_choose` (filesystem access as oracles);
  - the `OptionSelector` enum, the `ConfigClassB` dataclass defaults and
    `BaseConfig.asdict`.
-/

set_option autoImplicit false

namespace Configs

/-- Model of the python exceptions relevant to config.py.
`omegaError` stands for `OmegaConfBaseException` and all its subclasses
(ValidationError, ConfigKeyError, KeyValidationError, ...); `fsError`
stands for the `OSError` family (`FileNotFoundError` in particular),
which is not an `OmegaConfBaseException`; `configurationError` is the
`ConfigurationError` class raised by config.py itself. -/
inductive PyErr where
  | omegaError : String → PyErr
  | fsError : String → PyErr
  | configurationError : String → PyErr
  deriving DecidableEq

/-- The message carried by an exception, modelling python `str(e)`. -/
def PyErr.msg : PyErr → String
  | PyErr.omegaError m => m
  | PyErr.fsError m => m
  | PyErr.configurationError m => m

/-- Whether the exception is an `OmegaConfBaseException`, i.e. whether the
`except OmegaConfBaseException` clauses in `new` and `load` catch it. -/
def PyErr.isOmega : PyErr → Bool
  | PyErr.omegaError _ => true
  | _ => false

/-- An omegaconf configuration tree: mapping nodes (python dicts: ordered,
unique keys) and scalar leaves carrying their raw textual form. -/
inductive Value where
  | scalar : String → Value
  | dict : List (String × Value) → Value

/-- Lookup of a key in a mapping node (python `d[k]` on a dict). -/
def assocGet : List (String × Value) → String → Option Value
  | [], _ => none
  | (k, v) :: rest, key => if k = key then some v else assocGet rest key

/-- Assignment of a key in a mapping node (python `d[k] = w`): replaces the
value in place if the key is present, appends otherwise. -/
def assocSet : List (String × Value) → String → Value → List (String × Value)
  | [], key, w => [(key, w)]
  | (k, v) :: rest, key, w =>
      if k = key then (k, w) :: rest else (k, v) :: assocSet rest key w

mutual

/-- Model of `om.merge(a, b)` (omegaconf `BaseContainer._map_merge`): when
both sides are mapping nodes the keys of `b` are merged into `a` one by
one; in every other case the right-hand side replaces the left. -/
def merge : Value → Value → Value
  | Value.dict a, Value.dict b => Value.dict (mergeOnto a b)
  | _, b => b
termination_by _x y => (sizeOf y, 0)
decreasing_by all_goals simp_wf; omega

/-- Merge the entries of the source mapping into the destination, in
source order (the iteration over `src.items()` in `_map_merge`). -/
def mergeOnto : List (String × Value) → List (String × Value) → List (String × Value)
  | a, [] => a
  | a, (k, w) :: rest => mergeOnto (mergeEntry a k w) rest
termination_by _a l => (sizeOf l, 0)
decreasing_by all_goals simp_wf; omega

/-- Merge a single source entry into the destination mapping: an existing
value under the same key is merged recursively (which replaces it unless
both sides are mappings), a fresh key is appended. -/
def mergeEntry : List (String × Value) → String → Value → List (String × Value)
  | [], key, w => [(key, w)]
  | (k, v) :: tl, key, w =>
      if k = key then (k, merge v w) :: tl else (k, v) :: mergeEntry tl key w
termination_by a _k w => (sizeOf w, sizeOf a + 1)
decreasing_by all_goals simp_wf; omega

end

/-- Value lookup along a dotted path (reading `conf.a.b.c`). -/
def getPath : Value → List String → Option Value
  | v, [] => some v
  | Value.dict es, k :: rest =>
      match assocGet es k with
      | some w => getPath w rest
      | none => none
  | Value.scalar _, _ :: _ => none

/-- The mapping entries a path navigation continues into: the entries of
an existing mapping node, and the empty mapping when the node is
missing or not a container (`OmegaConf.update` replaces such a node by
`{}` before descending). -/
def subEntries : Option Value → List (String × Value)
  | some (Value.dict d) => d
  | _ => []

/-- Model of `OmegaConf.update(cfg, key, value)` for a scalar `value`, as
used by `om.from_dotlist`: navigate the dotted path, replacing a missing
or non-container intermediate node by an empty mapping, then assign the
scalar at the last component. -/
def setPathEntries : List (String × Value) → List String → String → List (String × Value)
  | es, [], _ => es
  | es, k :: rest, v =>
      match rest with
      | [] => assocSet es k (Value.scalar v)
      | _ :: _ => assocSet es k (Value.dict (setPathEntries (subEntries (assocGet es k)) rest v))

/-- Whether a mapping node has an entry under the given key. -/
def hasKey (es : List (String × Value)) (key : String) : Bool :=
  es.any (fun e => e.1 == key)

/-- Uniqueness of the keys of a mapping node: always true of the python
dicts backing omegaconf DictConfig nodes, an explicit well-formedness
side condition in the list model. -/
def nodupKeys : List (String × Value) → Bool
  | [] => true
  | (k, _) :: rest => !(hasKey rest k) && nodupKeys rest

mutual

/-- Well-formedness of a tree: every mapping node has unique keys. -/
def wf : Value → Bool
  | Value.scalar _ => true
  | Value.dict es => nodupKeys es && wfEntries es

/-- Well-formedness of every value of a list of entries. -/
def wfEntries : List (String × Value) → Bool
  | [] => true
  | (_, v) :: rest => wf v && wfEntries rest

end

/-- Whether the pattern list is an initial segment of the other list. -/
def startsWithChars : List Char → List Char → Bool
  | [], _ => true
  | _ :: _, [] => false
  | p :: ps, c :: cs => p == c && startsWithChars ps cs

/-- Model of `is_url` (config.py line 30): python
`re.match(r"[a-z0-9]+://.*", str(path))` succeeds iff the string starts
with a nonempty run of characters from `[a-z0-9]` followed by `://`
(`re.match` anchors only at the start, and `.*` matches any tail, the
empty one included; since `:` is not in `[a-z0-9]`, the greedy `+` can
only match the maximal run, so taking the maximal run is exact). -/
def is_url (s : String) : Bool :=
  let run := s.data.takeWhile (fun c => c.isLower || c.isDigit)
  !run.isEmpty && startsWithChars [':', '/', '/'] (s.data.drop run.length)

/-- Model of python `name.strip("-")`: removes every leading and every
trailing dash. -/
def stripDashes (cs : List Char) : List Char :=
  ((cs.dropWhile (fun c => c == '-')).reverse.dropWhile (fun c => c == '-')).reverse

/-- Model of python `name.replace("-", "_")`. -/
def undash (cs : List Char) : List Char :=
  cs.map (fun c => if c == '-' then '_' else c)

/-- Model of `clean_opt` (config.py lines 34-39): when the argument has no
`=` append `=True`; split at the first `=`; strip leading and trailing
dashes from the name, turn its remaining dashes into underscores, and
reassemble with the value part untouched. -/
def clean_opt (s : String) : String :=
  let cs := if '=' ∈ s.data then s.data else s.data ++ "=True".data
  let nm := cs.takeWhile (fun c => !(c == '='))
  let v := (cs.dropWhile (fun c => !(c == '='))).drop 1
  String.mk (undash (stripDashes nm) ++ '=' :: v)

/-- The key normalization exactly as claim C4 words it: strip only the
LEADING dashes of the name, then replace the remaining dashes with
underscores (this differs from `clean_opt`, which also strips trailing
dashes; the definition exists only to be compared with `clean_opt`). -/
def clean_opt_claimed (s : String) : String :=
  let cs := if '=' ∈ s.data then s.data else s.data ++ "=True".data
  let nm := cs.takeWhile (fun c => !(c == '='))
  let v := (cs.dropWhile (fun c => !(c == '='))).drop 1
  String.mk (undash (nm.dropWhile (fun c => c == '-')) ++ '=' :: v)

/-- Model of python `key.split(".")` on the character list of the key:
the groups between the dots, in order (`"a.b"` gives `a`, `b`; the
empty string gives one empty group). Spelled out structurally because
the split of the standard library does not evaluate inside the kernel. -/
def splitOnDot : List Char → List (List Char)
  | [] => [[]]
  | c :: rest =>
      match splitOnDot rest with
      | [] => [[c]]
      | g :: gs => if c = '.' then [] :: g :: gs else (c :: g) :: gs

/-- Parsing of one dot-list override by `merge_with_dotlist`: the part
before the first `=` is the dotted key (split at the dots), the part
after it the scalar value. Scalars stay in raw textual form in this
model, so an entry without `=` gets the textual value `""` where
omegaconf stores python `None` (both are scalar leaves; no claim
depends on the difference). -/
def parseOverride (s : String) : List String × String :=
  let key := s.data.takeWhile (fun c => !(c == '='))
  let v := (s.data.dropWhile (fun c => !(c == '='))).drop 1
  ((splitOnDot key).map String.mk, String.mk v)

/-- One step of `merge_with_dotlist`: apply a parsed override to the
top-level mapping entries. -/
def applyOverride (es : List (String × Value)) (o : List String × String) :
    List (String × Value) :=
  setPathEntries es o.1 o.2

/-- Build a mapping from parsed overrides, applied in list order to an
initially empty configuration. -/
def fromPairs (l : List (List String × String)) : Value :=
  Value.dict (l.foldl applyOverride [])

/-- Model of `om.from_dotlist(overrides)`. -/
def from_dotlist (overrides : List String) : Value :=
  fromPairs (overrides.map parseOverride)

/-- Model of `BaseConfig.update_legacy_settings` (config.py line 94): the
default implementation is the identity. -/
def update_legacy_settings (config : Value) : Value := config

/-- Model of `raw[key]` (config.py line 125): DictConfig lookup raises
`ConfigKeyError` for a missing key and `KeyValidationError` for a string
index into a non-mapping node; both are `OmegaConfBaseException`
subclasses (omegaconf.errors), hence `omegaError` here. The message
text is modelled. -/
def getItem (v : Value) (k : String) : Except PyErr Value :=
  match v with
  | Value.dict es =>
      match assocGet es k with
      | some w => Except.ok w
      | none => Except.error (PyErr.omegaError ("Missing key " ++ k))
  | Value.scalar _ => Except.error (PyErr.omegaError ("Key lookup on a non-mapping node: " ++ k))

/-- Model of the `try ... except OmegaConfBaseException as e: raise
ConfigurationError(str(e))` wrapper shared by `new` and `load`. -/
def catchOmega {α : Type} (r : Except PyErr α) : Except PyErr α :=
  match r with
  | Except.error e =>
      if e.isOmega then Except.error (PyErr.configurationError e.msg) else Except.error e
  | Except.ok a => Except.ok a

/-- The body of the `try` block of `BaseConfig.load` (config.py lines
122-130). Effectful steps are supplied as oracles: `parse` is the
outcome of `om.load(str(path))`; `mergeChk` the outcome of `om.merge`
(which type-checks against the structured schema and can raise
`OmegaConfBaseException` subclasses); `toObj` the outcome of
`om.to_object` (final validation and conversion). `if overrides:` is
false for python `None` and for the empty list alike, so `overrides`
is a plain list here. -/
def loadBody {α : Type} (parse : Except PyErr Value) (key : Option String)
    (mergeChk : Value → Value → Except PyErr Value)
    (toObj : Value → Except PyErr α)
    (schema : Value) (overrides : List String) : Except PyErr α :=
  match parse with
  | Except.error e => Except.error e
  | Except.ok raw =>
      match (match key with
             | none => Except.ok raw
             | some k => getItem raw k) with
      | Except.error e => Except.error e
      | Except.ok raw =>
          match mergeChk schema (update_legacy_settings raw) with
          | Except.error e => Except.error e
          | Except.ok conf =>
              match (if overrides.isEmpty then Except.ok conf
                     else mergeChk conf (from_dotlist overrides)) with
              | Except.error e => Except.error e
              | Except.ok conf => toObj conf

/-- Model of `BaseConfig.load` (config.py lines 111-132): the try body
wrapped by the `except OmegaConfBaseException` clause. -/
def load {α : Type} (parse : Except PyErr Value) (key : Option String)
    (mergeChk : Value → Value → Except PyErr Value)
    (toObj : Value → Except PyErr α)
    (schema : Value) (overrides : List String) : Except PyErr α :=
  catchOmega (loadBody parse key mergeChk toObj schema overrides)

/-- The body of the `try` block of `BaseConfig.new` (config.py lines
104-107): merge the keyword arguments, when given, onto the schema and
convert. -/
def newBody {α : Type} (mergeChk : Value → Value → Except PyErr Value)
    (toObj : Value → Except PyErr α)
    (schema : Value) (kwargs : Option Value) : Except PyErr α :=
  match (match kwargs with
         | some kw => mergeChk schema kw
         | none => Except.ok schema) with
  | Except.error e => Except.error e
  | Except.ok conf => toObj conf

/-- Model of `BaseConfig.new` (config.py lines 100-109). -/
def new {α : Type} (mergeChk : Value → Value → Except PyErr Value)
    (toObj : Value → Except PyErr α)
    (schema : Value) (kwargs : Option Value) : Except PyErr α :=
  catchOmega (newBody mergeChk toObj schema kwargs)

/-- The successful `om.merge` used on the success path of `load`: the pure
tree merge, no type error. -/
def pureMergeChk (a b : Value) : Except PyErr Value := Except.ok (merge a b)

/-- The resolved tree computed by a successful `load` with a non-empty
override list: schema defaults, file document, then dot-list overrides. -/
def resolveConf (schema raw : Value) (overrides : List String) : Value :=
  merge (merge schema raw) (from_dotlist overrides)

/-- Lexicographic comparison of two lists of characters by code point:
true when the first is less than or equal to the second. This is the
order python `sorted` uses on strings. (Lean's own String order is
defined by well-founded recursion over byte iterators, which the
kernel cannot evaluate, so the order is spelled out structurally.) -/
def leChars : List Char → List Char → Bool
  | [], _ => true
  | _ :: _, [] => false
  | a :: as, b :: bs =>
      if a.toNat < b.toNat then true
      else if b.toNat < a.toNat then false
      else leChars as bs

/-- Code-point lexicographic order on strings. -/
def leString (a b : String) : Bool := leChars a.data b.data

/-- Model of python `sorted` on strings: a stable sort by the
code-point lexicographic order. -/
def sortStrings (l : List String) : List String :=
  l.insertionSort (fun a b => leString a b = true)

/-- Model of the `path_glob` resolver (config.py lines 71-78): the
filesystem is the oracle `globFn` giving the raw matches of a pattern.
Each pattern contributes its matches sorted; with `validatePaths` on, a
pattern without matches raises `FileNotFoundError` (the PathNotFoundError
of the spec) naming the pattern. -/
def path_glob (globFn : String → List String) (validatePaths : Bool) :
    List String → Except PyErr (List String)
  | [] => Except.ok []
  | p :: rest =>
      let ms := sortStrings (globFn p)
      if ms.isEmpty && validatePaths then
        Except.error (PyErr.fsError (p ++ " does not match any files or dirs"))
      else
        match path_glob globFn validatePaths rest with
        | Except.ok out => Except.ok (ms ++ out)
        | Except.error e => Except.error e

/-- The loop of `path_choose`: first argument that is a syntactic URL or
exists on the filesystem (`existsFn` is the `Path(path).exists()`
oracle; the `or` is short-circuit, so the oracle is never consulted on
a URL). -/
def chooseFirst (existsFn : String → Bool) : List String → Option String
  | [] => none
  | p :: rest => if is_url p || existsFn p then some p else chooseFirst existsFn rest

/-- Model of the `path_choose` resolver (config.py lines 81-88). -/
def path_choose (existsFn : String → Bool) (validatePaths : Bool)
    (paths : List String) : Except PyErr String :=
  match chooseFirst existsFn paths with
  | some p => Except.ok p
  | none =>
      if validatePaths then Except.error (PyErr.fsError (String.intercalate ", " paths))
      else Except.ok ""

/-- Model of the `OptionSelector` string enum (config.py lines 147-161). -/
inductive OptionSelector where
  | default
  | option_a
  | option_b
  deriving DecidableEq

/-- Conversion of a string to an `OptionSelector` member, as the enum
lookup performed by `om.to_object` when materializing an
enumeration-typed field: only the three declared member values succeed. -/
def optionSelectorOfString (s : String) : Option OptionSelector :=
  if s = "default" then some OptionSelector.default
  else if s = "option_a" then some OptionSelector.option_a
  else if s = "option_b" then some OptionSelector.option_b
  else none

/-- The part of `om.to_object` that materializes the `option_selector`
field of `ConfigClassC` (config.py line 202): reads the field and
converts it; a value outside the declared member set raises a
`ValidationError`, an `OmegaConfBaseException` (message text modelled).
The conversion of the other fields of `ConfigClassC` is orthogonal to
the enum-membership claim and not modelled. -/
def toObjOptionSelector (conf : Value) : Except PyErr OptionSelector :=
  match getPath conf ["option_selector"] with
  | some (Value.scalar s) =>
      match optionSelectorOfString s with
      | some o => Except.ok o
      | none => Except.error (PyErr.omegaError ("Invalid value " ++ s ++ " for OptionSelector"))
  | _ => Except.error (PyErr.omegaError "option_selector is not a scalar")

/-- Python runtime values, for the dataclass-default claims: a python
field holds whatever value the class body assigned, independently of
the annotation. The literal `0.0` is the real number zero, exactly
representable, modelled as the rational 0. -/
inductive PyVal where
  | pyStr : String → PyVal
  | pyFloat : Rat → PyVal
  | pyNone : PyVal
  deriving DecidableEq

/-- The static (annotated) python types involved in claim C9. -/
inductive PyType where
  | str
  | float
  | noneType
  deriving DecidableEq

/-- The runtime type of a python value (`type(v)`). -/
def pyTypeOf : PyVal → PyType
  | PyVal.pyStr _ => PyType.str
  | PyVal.pyFloat _ => PyType.float
  | PyVal.pyNone => PyType.noneType

/-- Model of the `ConfigClassB` dataclass (config.py lines 172-183): the
fields hold runtime values, with the declared defaults `label = 0.0`
and `list_b = None`. -/
structure ConfigClassB where
  label : PyVal := PyVal.pyFloat 0
  list_b : PyVal := PyVal.pyNone

/-- The static annotation of `ConfigClassB.label` (config.py line 174):
`label: str = 0.0`. -/
def configClassB_label_declType : PyType := PyType.str

/-- Whether the first dotted path is an initial segment of the second. -/
def isPre : List String → List String → Bool
  | [], _ => true
  | _ :: _, [] => false
  | a :: as, b :: bs => a == b && isPre as bs

/-- Whether one of the two dotted paths is an initial segment of the
other, i.e. whether a write at the first can influence a read at the
second (or conversely). -/
def pathRelated (p q : List String) : Bool := isPre p q || isPre q p

/-- The navigation of the given dotted path inside the tree runs through
mapping nodes and falls off at a missing key: the tree holds nothing at
or below that path, and merging the tree on top of another leaves the
other tree's content at the path intact. -/
inductive Avoids : Value → List String → Prop where
  | missing (es : List (String × Value)) (k : String) (rest : List String) :
      assocGet es k = none → Avoids (Value.dict es) (k :: rest)
  | step (es : List (String × Value)) (k : String) (rest : List String) (w : Value) :
      assocGet es k = some w → Avoids w rest → Avoids (Value.dict es) (k :: rest)

/-- The body of the exclusion loop of `BaseConfig.asdict` (config.py
lines 141-143): `if name in out: del out[name]` on the plain mapping. -/
def delKey {α : Type} (out : List (String × α)) (nm : String) : List (String × α) :=
  if out.any (fun e => e.1 == nm) then out.filter (fun e => !(e.1 == nm)) else out

/-- Model of `BaseConfig.asdict` (config.py lines 138-144) applied to the
plain mapping `out` produced by `dataclasses.asdict(self)`: drop each
name of `exclude` in turn when present; `exclude=None` leaves the
mapping unchanged. -/
def asdict {α : Type} (out : List (String × α)) (exclude : Option (List String)) :
    List (String × α) :=
  match exclude with
  | none => out
  | some ex => ex.foldl delKey out

theorem data_mk (l : List Char) : (String.mk l).data = l := rfl

theorem takeWhile_eq_append (k v : List Char) (h : '=' ∉ k) :
    (k ++ '=' :: v).takeWhile (fun c => !(c == '=')) = k := by
  induction k with
  | nil => simp
  | cons c tl ih =>
      have hc : ¬(c = '=') := fun hc => h (by simp [hc])
      have htl : '=' ∉ tl := fun hm => h (List.mem_cons_of_mem _ hm)
      simp [List.takeWhile_cons, hc, ih htl]

theorem dropWhile_eq_append (k v : List Char) (h : '=' ∉ k) :
    (k ++ '=' :: v).dropWhile (fun c => !(c == '=')) = '=' :: v := by
  induction k with
  | nil => simp
  | cons c tl ih =>
      have hc : ¬(c = '=') := fun hc => h (by simp [hc])
      have htl : '=' ∉ tl := fun hm => h (List.mem_cons_of_mem _ hm)
      simp [List.dropWhile_cons, hc, ih htl]

theorem eq_notin_takeWhile (l : List Char) : '=' ∉ l.takeWhile (fun c => !(c == '=')) := by
  intro h
  have := List.mem_takeWhile_imp h
  simp at this

theorem mem_stripDashes {c : Char} {l : List Char} (h : c ∈ stripDashes l) : c ∈ l := by
  unfold stripDashes at h
  rw [List.mem_reverse] at h
  have h2 := (List.dropWhile_sublist _).subset h
  rw [List.mem_reverse] at h2
  exact (List.dropWhile_sublist _).subset h2

theorem dropWhile_dash_eq_self (l : List Char) (h : '-' ∉ l) :
    l.dropWhile (fun c => c == '-') = l := by
  cases l with
  | nil => rfl
  | cons c tl =>
      have hc : ¬(c = '-') := fun hc => h (by simp [hc])
      simp [List.dropWhile_cons, hc]

theorem stripDashes_no_dash (l : List Char) (h : '-' ∉ l) : stripDashes l = l := by
  unfold stripDashes
  rw [dropWhile_dash_eq_self l h,
    dropWhile_dash_eq_self _ (by simpa using h), List.reverse_reverse]

theorem undash_no_dash (l : List Char) (h : '-' ∉ l) : undash l = l := by
  induction l with
  | nil => rfl
  | cons c tl ih =>
      have hc : ¬(c = '-') := fun hc => h (by simp [hc])
      have htl : '-' ∉ tl := fun hm => h (List.mem_cons_of_mem _ hm)
      simp only [undash, List.map_cons]
      rw [if_neg (by simpa using hc)]
      have := ih htl
      simp only [undash] at this
      rw [this]

theorem dash_notin_undash (l : List Char) : '-' ∉ undash l := by
  intro h
  unfold undash at h
  rw [List.mem_map] at h
  obtain ⟨c, _, hc⟩ := h
  by_cases h2 : c = '-'
  · simp [h2] at hc
  · rw [if_neg (by simpa using h2)] at hc
    exact h2 hc

theorem eq_notin_undash (l : List Char) (h : '=' ∉ l) : '=' ∉ undash l := by
  intro hm
  unfold undash at hm
  rw [List.mem_map] at hm
  obtain ⟨c, hcl, hc⟩ := hm
  by_cases h2 : c = '-'
  · simp [h2] at hc
  · rw [if_neg (by simpa using h2)] at hc
    exact h (hc ▸ hcl)

theorem clean_opt_split (k v : List Char) (h : '=' ∉ k) :
    clean_opt (String.mk (k ++ '=' :: v)) = String.mk (undash (stripDashes k) ++ '=' :: v) := by
  have hm : '=' ∈ (k ++ '=' :: v) := by simp
  simp only [clean_opt, data_mk, if_pos hm, takeWhile_eq_append k v h,
    dropWhile_eq_append k v h, List.drop_succ_cons, List.drop_zero]

theorem clean_opt_shape (s : String) :
    ∃ k v, clean_opt s = String.mk (k ++ '=' :: v) ∧ '=' ∉ k ∧ '-' ∉ k := by
  refine ⟨undash (stripDashes ((if '=' ∈ s.data then s.data else
      s.data ++ "=True".data).takeWhile (fun c => !(c == '=')))), _, rfl, ?_, ?_⟩
  · exact eq_notin_undash _ (fun hm => eq_notin_takeWhile _ (mem_stripDashes hm))
  · exact dash_notin_undash _

/-- C8: clean_opt is idempotent: its output always contains an equals
sign, and its key part is free of dashes, so a second application
changes nothing. -/
theorem C8_clean_opt_idempotent (s : String) : clean_opt (clean_opt s) = clean_opt s := by
  obtain ⟨k, v, heq, h1, h2⟩ := clean_opt_shape s
  rw [heq, clean_opt_split k v h1, stripDashes_no_dash k h2, undash_no_dash k h2]

/-- C4 counterexample: on the input `a-=1` the code strips the trailing
dash of the key (`strip("-")` removes dashes at both ends), producing
`a=1`, while the claimed normalization (strip leading dashes only, turn
the remaining dashes into underscores) would produce `a_=1`. -/
theorem C4_counterexample :
    clean_opt "a-=1" = "a=1" ∧ clean_opt_claimed "a-=1" = "a_=1" ∧
    clean_opt "a-=1" ≠ clean_opt_claimed "a-=1" := by
  refine ⟨by decide, by decide, by decide⟩

/-- C4 amended: clean_opt appends `=True` when the string contains no
`=`, then in all cases splits at the first `=` and normalizes only the
key part, stripping leading AND trailing dashes and replacing the
remaining dashes with underscores, leaving the value part unchanged; in
particular clean_opt of `foo` is `foo=True` and clean_opt of
`--list-b=x,y` is `list_b=x,y`. -/
theorem C4_clean_opt_amended :
    (∀ s : String, '=' ∉ s.data →
        clean_opt s = String.mk (undash (stripDashes s.data) ++ '=' :: "True".data)) ∧
    (∀ k v : List Char, '=' ∉ k →
        clean_opt (String.mk (k ++ '=' :: v)) = String.mk (undash (stripDashes k) ++ '=' :: v)) ∧
    clean_opt "foo" = "foo=True" ∧ clean_opt "--list-b=x,y" = "list_b=x,y" := by
  refine ⟨?_, fun k v h => clean_opt_split k v h, by decide, by decide⟩
  intro s h
  have hlit : "=True".data = '=' :: "True".data := by decide
  have h3 : clean_opt s = clean_opt (String.mk (s.data ++ '=' :: "True".data)) := by
    simp only [clean_opt, data_mk]
    rw [if_neg h, if_pos (show '=' ∈ s.data ++ '=' :: "True".data by simp)]
  rw [h3, clean_opt_split s.data "True".data h]

/-- Witness for the amended C4 theorem. -/
theorem C4_clean_opt_amended_witness :
    clean_opt "x-y" = "x_y=True" ∧ clean_opt "--a-b=c-d" = "a_b=c-d" := by
  refine ⟨?_, ?_⟩
  · have h := C4_clean_opt_amended.1 "x-y" (by decide)
    rw [h]; decide
  · have h := C4_clean_opt_amended.2.1 "--a-b".data "c-d".data (by decide)
    have : String.mk ("--a-b".data ++ '=' :: "c-d".data) = "--a-b=c-d" := by decide
    rw [this] at h
    rw [h]; decide

/-- C9: ConfigClassB declares `label` with static type str, yet its
default value is the float 0.0; a default-constructed ConfigClassB holds
that float, whose runtime type differs from the declared type. -/
theorem C9_label_default_not_str :
    ({} : ConfigClassB).label = PyVal.pyFloat 0 ∧
    pyTypeOf ({} : ConfigClassB).label = PyType.float ∧
    pyTypeOf ({} : ConfigClassB).label ≠ configClassB_label_declType :=
  ⟨rfl, rfl, by decide⟩

theorem delKey_eq_filter {α : Type} (out : List (String × α)) (nm : String) :
    delKey out nm = out.filter (fun e => !(e.1 == nm)) := by
  unfold delKey
  by_cases h : out.any (fun e => e.1 == nm)
  · rw [if_pos h]
  · rw [if_neg h]
    refine (List.filter_eq_self.mpr ?_).symm
    intro e he
    rw [List.any_eq_true] at h
    push_neg at h
    simp [h e he]

theorem foldl_delKey {α : Type} (ex : List String) (out : List (String × α)) :
    ex.foldl delKey out = out.filter (fun e => !(ex.contains e.1)) := by
  induction ex generalizing out with
  | nil => simp
  | cons n ns ih =>
      rw [List.foldl_cons, ih, delKey_eq_filter, List.filter_filter]
      congr 1
      funext e
      simp only [List.contains_cons, Bool.not_or]
      by_cases h1 : e.1 = n <;> by_cases h2 : e.1 ∈ ns <;> simp [h1, h2]

/-- C10: asdict with an exclude set removes exactly the top-level entries
whose name is listed (names not present are silently ignored), keeping
every other entry, its nested value included, unchanged; without
exclude the mapping is returned as is. -/
theorem C10_asdict_exclude {α : Type} (out : List (String × α)) (ex : List String) :
    asdict out (some ex) = out.filter (fun e => !(ex.contains e.1)) ∧
    asdict out none = out :=
  ⟨foldl_delKey ex out, rfl⟩

theorem leChars_total : ∀ a b : List Char, leChars a b = true ∨ leChars b a = true
  | [], _ => Or.inl rfl
  | _ :: _, [] => Or.inr rfl
  | x :: as, y :: bs => by
      rcases Nat.lt_trichotomy x.toNat y.toNat with h | h | h
      · left
        simp [leChars, h]
      · rcases leChars_total as bs with h2 | h2
        · left
          simp [leChars, h, h2]
        · right
          simp [leChars, h.symm, h2]
      · right
        simp [leChars, h]

theorem leChars_trans : ∀ a b c : List Char,
    leChars a b = true → leChars b c = true → leChars a c = true
  | [], _, _, _, _ => rfl
  | _ :: _, [], _, hab, _ => by simp [leChars] at hab
  | _ :: _, _ :: _, [], _, hbc => by simp [leChars] at hbc
  | x :: as, y :: bs, z :: cs, hab, hbc => by
      simp only [leChars] at hab hbc ⊢
      rcases Nat.lt_trichotomy x.toNat y.toNat with h1 | h1 | h1
      · rcases Nat.lt_trichotomy y.toNat z.toNat with h2 | h2 | h2
        · rw [if_pos (by omega)]
        · rw [if_pos (by omega)]
        · rw [if_neg (by omega), if_pos (by omega)] at hbc
          exact absurd hbc (by simp)
      · rw [if_neg (by omega), if_neg (by omega)] at hab
        rcases Nat.lt_trichotomy y.toNat z.toNat with h2 | h2 | h2
        · rw [if_pos (by omega)]
        · rw [if_neg (by omega), if_neg (by omega)] at hbc ⊢
          exact leChars_trans as bs cs hab hbc
        · rw [if_neg (by omega), if_pos (by omega)] at hbc
          exact absurd hbc (by simp)
      · rw [if_neg (by omega), if_pos (by omega)] at hab
        exact absurd hab (by simp)

theorem sortStrings_sorted (l : List String) :
    List.Sorted (fun a b => leString a b = true) (sortStrings l) := by
  haveI h1 : IsTotal String (fun a b => leString a b = true) :=
    ⟨fun a b => leChars_total a.data b.data⟩
  haveI h2 : IsTrans String (fun a b => leString a b = true) :=
    ⟨fun a b c => leChars_trans a.data b.data c.data⟩
  exact List.sorted_insertionSort _ l

theorem sortStrings_perm (l : List String) : (sortStrings l).Perm l :=
  List.perm_insertionSort _ l

theorem sortStrings_eq_nil_iff (l : List String) : sortStrings l = [] ↔ l = [] := by
  constructor
  · intro h
    have hp := sortStrings_perm l
    rw [h] at hp
    exact hp.symm.eq_nil
  · intro h
    subst h
    rfl

theorem path_glob_no_validate (globFn : String → List String) (ps : List String) :
    path_glob globFn false ps =
      Except.ok ((ps.map (fun p => sortStrings (globFn p))).flatten) := by
  induction ps with
  | nil => rfl
  | cons p rest ih => simp [path_glob, ih]

theorem path_glob_validate_ok (globFn : String → List String) (ps : List String)
    (h : ∀ p ∈ ps, globFn p ≠ []) :
    path_glob globFn true ps =
      Except.ok ((ps.map (fun p => sortStrings (globFn p))).flatten) := by
  induction ps with
  | nil => rfl
  | cons p rest ih =>
      have hne : sortStrings (globFn p) ≠ [] :=
        fun hh => h p (List.mem_cons_self p rest) ((sortStrings_eq_nil_iff _).mp hh)
      have hp : (sortStrings (globFn p)).isEmpty = false := by
        cases hem : (sortStrings (globFn p)).isEmpty
        · rfl
        · exact absurd (List.isEmpty_iff.mp hem) hne
      simp [path_glob, hp, ih (fun q hq => h q (List.mem_cons_of_mem _ hq))]

theorem path_glob_validate_err (globFn : String → List String) (l1 : List String)
    (p : String) (l2 : List String)
    (h1 : ∀ q ∈ l1, globFn q ≠ []) (hp : globFn p = []) :
    path_glob globFn true (l1 ++ p :: l2) =
      Except.error (PyErr.fsError (p ++ " does not match any files or dirs")) := by
  induction l1 with
  | nil =>
      have hms : sortStrings (globFn p) = [] := by rw [hp]; rfl
      simp [path_glob, hms]
  | cons q rest ih =>
      have hne : sortStrings (globFn q) ≠ [] :=
        fun hh => h1 q (List.mem_cons_self q rest) ((sortStrings_eq_nil_iff _).mp hh)
      have hq : (sortStrings (globFn q)).isEmpty = false := by
        cases hem : (sortStrings (globFn q)).isEmpty
        · rfl
        · exact absurd (List.isEmpty_iff.mp hem) hne
      simp [path_glob, hq, ih (fun r hr => h1 r (List.mem_cons_of_mem _ hr))]

/-- C5: path_glob returns the concatenation, in argument order, of each
pattern's glob matches sorted lexicographically; with validate_paths on,
a pattern with zero matches fails with the PathNotFoundError-style
FileNotFoundError naming that pattern (the first such pattern, matching
the loop order); with validate_paths off a zero-match pattern silently
contributes nothing. sortStrings really sorts: its output is ordered by
the code-point lexicographic order and is a permutation of its input. -/
theorem C5_path_glob :
    (∀ (globFn : String → List String) (ps : List String),
        path_glob globFn false ps =
          Except.ok ((ps.map (fun p => sortStrings (globFn p))).flatten)) ∧
    (∀ (globFn : String → List String) (ps : List String), (∀ p ∈ ps, globFn p ≠ []) →
        path_glob globFn true ps =
          Except.ok ((ps.map (fun p => sortStrings (globFn p))).flatten)) ∧
    (∀ (globFn : String → List String) (l1 : List String) (p : String) (l2 : List String),
        (∀ q ∈ l1, globFn q ≠ []) → globFn p = [] →
        path_glob globFn true (l1 ++ p :: l2) =
          Except.error (PyErr.fsError (p ++ " does not match any files or dirs"))) ∧
    (∀ l : List String,
        List.Sorted (fun a b => leString a b = true) (sortStrings l) ∧ (sortStrings l).Perm l) :=
  ⟨path_glob_no_validate, path_glob_validate_ok, path_glob_validate_err,
   fun l => ⟨sortStrings_sorted l, sortStrings_perm l⟩⟩

/-- Witness for C5 at a concrete filesystem oracle: a two-match pattern
succeeds sorted, a zero-match pattern fails under validation naming the
pattern, and contributes nothing without validation. -/
theorem C5_path_glob_witness :
    path_glob (fun p => if p = "x" then ["b", "a"] else []) true ["x"] =
      Except.ok ["a", "b"] ∧
    path_glob (fun p => if p = "x" then ["b", "a"] else []) true ["x", "y"] =
      Except.error (PyErr.fsError "y does not match any files or dirs") ∧
    path_glob (fun p => if p = "x" then ["b", "a"] else []) false ["y", "x"] =
      Except.ok ["a", "b"] := by
  refine ⟨?_, ?_, ?_⟩
  · exact (C5_path_glob.2.1 (fun p => if p = "x" then ["b", "a"] else []) ["x"]
      (by decide)).trans (by rfl)
  · exact (C5_path_glob.2.2.1 (fun p => if p = "x" then ["b", "a"] else []) ["x"] "y" []
      (by decide) (by decide)).trans (by rfl)
  · exact (C5_path_glob.1 (fun p => if p = "x" then ["b", "a"] else []) ["y", "x"]).trans
      (by rfl)

theorem chooseFirst_skip (existsFn : String → Bool) (l1 : List String) (p : String)
    (l2 : List String)
    (h1 : ∀ q ∈ l1, is_url q = false ∧ existsFn q = false)
    (hp : (is_url p || existsFn p) = true) :
    chooseFirst existsFn (l1 ++ p :: l2) = some p := by
  induction l1 with
  | nil => simp [chooseFirst, hp]
  | cons q rest ih =>
      obtain ⟨hu, he⟩ := h1 q (List.mem_cons_self q rest)
      simp [chooseFirst, hu, he, ih (fun r hr => h1 r (List.mem_cons_of_mem _ hr))]

theorem chooseFirst_none (existsFn : String → Bool) (paths : List String)
    (h : ∀ q ∈ paths, is_url q = false ∧ existsFn q = false) :
    chooseFirst existsFn paths = none := by
  induction paths with
  | nil => rfl
  | cons q rest ih =>
      obtain ⟨hu, he⟩ := h q (List.mem_cons_self q rest)
      simp [chooseFirst, hu, he, ih (fun r hr => h r (List.mem_cons_of_mem _ hr))]

theorem chooseFirst_congr (f g : String → Bool) (paths : List String)
    (h : ∀ q ∈ paths, is_url q = false → f q = g q) :
    chooseFirst f paths = chooseFirst g paths := by
  induction paths with
  | nil => rfl
  | cons p rest ih =>
      have ih2 := ih (fun r hr => h r (List.mem_cons_of_mem _ hr))
      by_cases hu : is_url p = true
      · simp [chooseFirst, hu]
      · have hf : is_url p = false := by revert hu; cases is_url p <;> simp
        have hfg := h p (List.mem_cons_self p rest) hf
        simp [chooseFirst, hf, hfg, ih2]

/-- C6: path_choose returns the first argument that is a syntactic URL
(prefix matching the `[a-z0-9]+://` pattern) or exists on the
filesystem; with no match it fails with the PathNotFoundError-style
FileNotFoundError listing all candidates when validate_paths is on, and
returns the empty string when it is off. The result never depends on
the filesystem oracle at URL arguments (the `or` short-circuits), and a
`scheme://` string is recognized purely syntactically. -/
theorem C6_path_choose :
    (∀ (existsFn : String → Bool) (validatePaths : Bool) (l1 : List String) (p : String)
        (l2 : List String),
        (∀ q ∈ l1, is_url q = false ∧ existsFn q = false) →
        (is_url p || existsFn p) = true →
        path_choose existsFn validatePaths (l1 ++ p :: l2) = Except.ok p) ∧
    (∀ (existsFn : String → Bool) (paths : List String),
        (∀ q ∈ paths, is_url q = false ∧ existsFn q = false) →
        path_choose existsFn true paths =
          Except.error (PyErr.fsError (String.intercalate ", " paths)) ∧
        path_choose existsFn false paths = Except.ok "") ∧
    (∀ (f g : String → Bool) (validatePaths : Bool) (paths : List String),
        (∀ q ∈ paths, is_url q = false → f q = g q) →
        path_choose f validatePaths paths = path_choose g validatePaths paths) ∧
    is_url "s3://bucket/key" = true := by
  refine ⟨?_, ?_, ?_, by decide⟩
  · intro ef vp l1 p l2 h1 hp
    simp [path_choose, chooseFirst_skip ef l1 p l2 h1 hp]
  · intro ef paths h
    constructor <;> simp [path_choose, chooseFirst_none ef paths h]
  · intro f g vp paths h
    simp [path_choose, chooseFirst_congr f g paths h]

/-- Witness for C6 at concrete inputs: a URL argument wins over a later
existing path without the filesystem oracle being relevant, the
no-match error lists both candidates comma-separated, and disabling
validation yields the empty string. -/
theorem C6_path_choose_witness :
    path_choose (fun q => q == "/etc") true ["nope", "s3://b/k", "/etc"] =
      Except.ok "s3://b/k" ∧
    path_choose (fun _ => false) true ["a", "b"] = Except.error (PyErr.fsError "a, b") ∧
    path_choose (fun _ => false) false ["a", "b"] = Except.ok "" ∧
    path_choose (fun _ => false) true ["s3://x"] =
      path_choose (fun q => is_url q) true ["s3://x"] := by
  refine ⟨?_, ?_, ?_, ?_⟩
  · exact C6_path_choose.1 (fun q => q == "/etc") true ["nope"] "s3://b/k" ["/etc"]
      (by decide) (by decide)
  · exact ((C6_path_choose.2.1 (fun _ => false) ["a", "b"] (by decide)).1).trans (by rfl)
  · exact (C6_path_choose.2.1 (fun _ => false) ["a", "b"] (by decide)).2
  · exact C6_path_choose.2.2.1 (fun _ => false) (fun q => is_url q) true ["s3://x"]
      (by decide)

theorem subEntries_none : subEntries none = [] := rfl

theorem subEntries_scalar {s : String} : subEntries (some (Value.scalar s)) = [] := rfl

theorem subEntries_dict {d : List (String × Value)} :
    subEntries (some (Value.dict d)) = d := rfl

theorem assocGet_assocSet_self (es : List (String × Value)) (k : String) (w : Value) :
    assocGet (assocSet es k w) k = some w := by
  induction es with
  | nil => simp [assocSet, assocGet]
  | cons e rest ih =>
      obtain ⟨k1, v1⟩ := e
      by_cases h : k1 = k
      · simp [assocSet, assocGet, h]
      · simp [assocSet, assocGet, h, ih]

theorem assocGet_assocSet_ne (es : List (String × Value)) (k k2 : String) (w : Value)
    (h : k ≠ k2) : assocGet (assocSet es k w) k2 = assocGet es k2 := by
  induction es with
  | nil => simp [assocSet, assocGet, h]
  | cons e rest ih =>
      obtain ⟨k1, v1⟩ := e
      by_cases h1 : k1 = k
      · subst h1
        simp [assocSet, assocGet, h]
      · simp only [assocSet, if_neg h1]
        by_cases h2 : k1 = k2
        · simp [assocGet, h2]
        · simp [assocGet, h2, ih]

theorem getPath_setPathEntries_self :
    ∀ (p : List String) (es : List (String × Value)) (v : String), p ≠ [] →
      getPath (Value.dict (setPathEntries es p v)) p = some (Value.scalar v)
  | [], _, _, h => absurd rfl h
  | [k], es, v, _ => by
      simp [setPathEntries, getPath, assocGet_assocSet_self]
  | k :: r1 :: rs, es, v, _ => by
      have ih := getPath_setPathEntries_self (r1 :: rs) (subEntries (assocGet es k)) v (by simp)
      simp only [setPathEntries, getPath, assocGet_assocSet_self]
      exact ih

theorem getPath_setPathEntries_unrelated :
    ∀ (q p : List String) (es : List (String × Value)) (v : String),
      pathRelated q p = false → p ≠ [] →
      getPath (Value.dict (setPathEntries es q v)) p = getPath (Value.dict es) p
  | [], p, es, v, h, _ => by simp [pathRelated, isPre] at h
  | _ :: _, [], _, _, _, hp => absurd rfl hp
  | k1 :: q2, k :: p2, es, v, h, _ => by
      by_cases hk : k1 = k
      · subst hk
        have hq2 : isPre q2 p2 = false ∧ isPre p2 q2 = false := by
          simp [pathRelated, isPre] at h
          exact h
        have hq2ne : q2 ≠ [] := by
          intro hq
          subst hq
          simp [isPre] at hq2
        have hp2ne : p2 ≠ [] := by
          intro hq
          subst hq
          simp [isPre] at hq2
        have hrel2 : pathRelated q2 p2 = false := by
          simp [pathRelated, hq2.1, hq2.2]
        cases q2 with
        | nil => exact absurd rfl hq2ne
        | cons r1 rs =>
            have hstep : getPath (Value.dict (setPathEntries es (k1 :: r1 :: rs) v))
                (k1 :: p2) =
                getPath (Value.dict (setPathEntries (subEntries (assocGet es k1))
                  (r1 :: rs) v)) p2 := by
              simp only [setPathEntries, getPath, assocGet_assocSet_self]
            rw [hstep]
            cases hga : assocGet es k1 with
            | none =>
                have hrhs : getPath (Value.dict es) (k1 :: p2) = none := by
                  simp [getPath, hga]
                rw [subEntries_none, hrhs,
                  getPath_setPathEntries_unrelated (r1 :: rs) p2 [] v hrel2 hp2ne]
                cases p2 with
                | nil => exact absurd rfl hp2ne
                | cons s1 ss => simp [getPath, assocGet]
            | some w =>
                cases w with
                | scalar s =>
                    have hrhs : getPath (Value.dict es) (k1 :: p2) = none := by
                      cases p2 with
                      | nil => exact absurd rfl hp2ne
                      | cons s1 ss => simp [getPath, hga]
                    rw [subEntries_scalar, hrhs,
                      getPath_setPathEntries_unrelated (r1 :: rs) p2 [] v hrel2 hp2ne]
                    cases p2 with
                    | nil => exact absurd rfl hp2ne
                    | cons s1 ss => simp [getPath, assocGet]
                | dict d =>
                    have hrhs : getPath (Value.dict es) (k1 :: p2) =
                        getPath (Value.dict d) p2 := by
                      simp [getPath, hga]
                    rw [subEntries_dict, hrhs]
                    exact getPath_setPathEntries_unrelated (r1 :: rs) p2 d v hrel2 hp2ne
      · cases q2 with
        | nil =>
            simp only [setPathEntries, getPath]
            rw [assocGet_assocSet_ne es k1 k _ hk]
        | cons r1 rs =>
            simp only [setPathEntries, getPath]
            rw [assocGet_assocSet_ne es k1 k _ hk]

theorem getPath_foldl_unrelated (l : List (List String × String)) :
    ∀ (es : List (String × Value)) (p : List String), p ≠ [] →
      (∀ o ∈ l, pathRelated o.1 p = false) →
      getPath (Value.dict (l.foldl applyOverride es)) p = getPath (Value.dict es) p := by
  induction l with
  | nil =>
      intro es p _ _
      rfl
  | cons o rest ih =>
      intro es p hp h
      rw [List.foldl_cons,
        ih (applyOverride es o) p hp (fun o2 ho => h o2 (List.mem_cons_of_mem _ ho))]
      exact getPath_setPathEntries_unrelated o.1 p es o.2 (h o (List.mem_cons_self _ _)) hp

theorem getPath_foldl_last (l1 l3 : List (List String × String)) (p : List String) (v : String)
    (es : List (String × Value)) (hp : p ≠ [])
    (h3 : ∀ o ∈ l3, pathRelated o.1 p = false) :
    getPath (Value.dict ((l1 ++ (p, v) :: l3).foldl applyOverride es)) p =
      some (Value.scalar v) := by
  rw [List.foldl_append, List.foldl_cons,
    getPath_foldl_unrelated l3 _ p hp h3]
  exact getPath_setPathEntries_self p _ v hp

theorem nodupKeys_cons {k : String} {w : Value} {rest : List (String × Value)}
    (h : nodupKeys ((k, w) :: rest) = true) : hasKey rest k = false ∧ nodupKeys rest = true := by
  simp [nodupKeys] at h
  exact h

theorem assocGet_eq_none_of_hasKey_false {es : List (String × Value)} {k : String}
    (h : hasKey es k = false) : assocGet es k = none := by
  induction es with
  | nil => rfl
  | cons e rest ih =>
      obtain ⟨k1, v1⟩ := e
      simp [hasKey] at h
      obtain ⟨h1, h2⟩ := h
      have h2b : hasKey rest k = false := by
        simp [hasKey]
        exact h2
      simp [assocGet, h1, ih h2b]

theorem hasKey_cons (k1 : String) (v1 : Value) (rest : List (String × Value)) (k2 : String) :
    hasKey ((k1, v1) :: rest) k2 = ((k1 == k2) || hasKey rest k2) := rfl

theorem hasKey_assocSet (es : List (String × Value)) (k k2 : String) (w : Value) :
    hasKey (assocSet es k w) k2 = (hasKey es k2 || (k == k2)) := by
  induction es with
  | nil => simp [assocSet, hasKey]
  | cons e rest ih =>
      obtain ⟨k1, v1⟩ := e
      by_cases h1 : k1 = k
      · subst h1
        rw [show assocSet ((k1, v1) :: rest) k1 w = (k1, w) :: rest from by simp [assocSet],
          hasKey_cons, hasKey_cons]
        cases hb : (k1 == k2) <;> cases hc : hasKey rest k2 <;> simp [hb, hc]
      · rw [show assocSet ((k1, v1) :: rest) k w = (k1, v1) :: assocSet rest k w from by
          simp [assocSet, h1], hasKey_cons, hasKey_cons, ih, Bool.or_assoc]

theorem nodupKeys_assocSet (es : List (String × Value)) (k : String) (w : Value)
    (h : nodupKeys es = true) : nodupKeys (assocSet es k w) = true := by
  induction es with
  | nil => simp [assocSet, nodupKeys, hasKey]
  | cons e rest ih =>
      obtain ⟨k1, v1⟩ := e
      obtain ⟨h1, h2⟩ := nodupKeys_cons h
      by_cases hk : k1 = k
      · subst hk
        simp [assocSet, nodupKeys, h1, h2]
      · simp only [assocSet, if_neg hk, nodupKeys, hasKey_assocSet, ih h2, Bool.and_true]
        simp [h1]
        exact fun hcontra => hk hcontra.symm

theorem wfEntries_assocSet (es : List (String × Value)) (k : String) (w : Value)
    (h : wfEntries es = true) (hw : wf w = true) : wfEntries (assocSet es k w) = true := by
  induction es with
  | nil => simp [assocSet, wfEntries, hw]
  | cons e rest ih =>
      obtain ⟨k1, v1⟩ := e
      simp [wfEntries] at h
      by_cases hk : k1 = k
      · simp [assocSet, hk, wfEntries, hw, h.2]
      · simp [assocSet, hk, wfEntries, h.1, ih h.2]

theorem wf_dict {es : List (String × Value)} (h : wf (Value.dict es) = true) :
    nodupKeys es = true ∧ wfEntries es = true := by
  simp [wf] at h
  exact h

theorem wf_assocGet {es : List (String × Value)} {k : String} {w : Value}
    (hes : wfEntries es = true) (h : assocGet es k = some w) : wf w = true := by
  induction es with
  | nil => simp [assocGet] at h
  | cons e rest ih =>
      obtain ⟨k1, v1⟩ := e
      simp [wfEntries] at hes
      by_cases hk : k1 = k
      · simp [assocGet, hk] at h
        exact h ▸ hes.1
      · simp [assocGet, hk] at h
        exact ih hes.2 h

theorem wf_setPathEntries :
    ∀ (q : List String) (es : List (String × Value)) (v : String),
      wf (Value.dict es) = true → wf (Value.dict (setPathEntries es q v)) = true
  | [], es, v, h => h
  | [k], es, v, h => by
      obtain ⟨h1, h2⟩ := wf_dict h
      have hv : wf (Value.scalar v) = true := rfl
      have ha := wfEntries_assocSet es k (Value.scalar v) h2 hv
      have hb := nodupKeys_assocSet es k (Value.scalar v) h1
      simp [setPathEntries, wf, ha, hb]
  | k :: r1 :: rs, es, v, h => by
      obtain ⟨h1, h2⟩ := wf_dict h
      have hsub : wf (Value.dict (subEntries (assocGet es k))) = true := by
        cases hga : assocGet es k with
        | none => simp [subEntries, wf, nodupKeys, wfEntries]
        | some w =>
            cases w with
            | scalar s => simp [subEntries, wf, nodupKeys, wfEntries]
            | dict d =>
                rw [subEntries_dict]
                exact wf_assocGet h2 hga
      have hin := wf_setPathEntries (r1 :: rs) (subEntries (assocGet es k)) v hsub
      simp only [setPathEntries, wf]
      rw [Bool.and_eq_true]
      constructor
      · exact nodupKeys_assocSet es k _ h1
      · exact wfEntries_assocSet es k _ h2 hin

theorem wf_foldl (l : List (List String × String)) :
    ∀ es : List (String × Value), wf (Value.dict es) = true →
      wf (Value.dict (l.foldl applyOverride es)) = true := by
  induction l with
  | nil =>
      intro es h
      exact h
  | cons o rest ih =>
      intro es h
      rw [List.foldl_cons]
      exact ih (applyOverride es o) (wf_setPathEntries o.1 es o.2 h)

theorem wf_fromPairs (l : List (List String × String)) : wf (fromPairs l) = true :=
  wf_foldl l [] (by simp [wf, nodupKeys, wfEntries])

theorem merge_dict_dict (a b : List (String × Value)) :
    merge (Value.dict a) (Value.dict b) = Value.dict (mergeOnto a b) := by
  simp [merge]

theorem merge_scalar_left (s : String) (b : List (String × Value)) :
    merge (Value.scalar s) (Value.dict b) = Value.dict b := by
  simp [merge]

theorem merge_scalar_right (a : Value) (s : String) :
    merge a (Value.scalar s) = Value.scalar s := by
  cases a <;> simp [merge]

theorem mergeOnto_nil (a : List (String × Value)) : mergeOnto a [] = a := by
  simp [mergeOnto]

theorem mergeOnto_cons (a : List (String × Value)) (k : String) (w : Value)
    (rest : List (String × Value)) :
    mergeOnto a ((k, w) :: rest) = mergeOnto (mergeEntry a k w) rest := by
  simp [mergeOnto]

theorem mergeEntry_nil (k : String) (w : Value) : mergeEntry [] k w = [(k, w)] := by
  simp [mergeEntry]

theorem mergeEntry_cons (k1 : String) (v1 : Value) (tl : List (String × Value))
    (k : String) (w : Value) :
    mergeEntry ((k1, v1) :: tl) k w =
      if k1 = k then (k1, merge v1 w) :: tl else (k1, v1) :: mergeEntry tl k w := by
  simp [mergeEntry]

theorem assocGet_mergeEntry_self (a : List (String × Value)) (k : String) (w : Value) :
    assocGet (mergeEntry a k w) k =
      some (match assocGet a k with | some u => merge u w | none => w) := by
  induction a with
  | nil => simp [mergeEntry_nil, assocGet]
  | cons e rest ih =>
      obtain ⟨k1, v1⟩ := e
      by_cases hk : k1 = k
      · simp [mergeEntry_cons, assocGet, hk]
      · simp [mergeEntry_cons, assocGet, hk, ih]

theorem assocGet_mergeEntry_ne (a : List (String × Value)) (k k2 : String) (w : Value)
    (h : k ≠ k2) : assocGet (mergeEntry a k w) k2 = assocGet a k2 := by
  induction a with
  | nil => simp [mergeEntry_nil, assocGet, h]
  | cons e rest ih =>
      obtain ⟨k1, v1⟩ := e
      by_cases hk : k1 = k
      · subst hk
        simp [mergeEntry_cons, assocGet, h]
      · by_cases hk2 : k1 = k2
        · subst hk2
          simp [mergeEntry_cons, assocGet, hk]
        · simp [mergeEntry_cons, assocGet, hk, hk2, ih]

theorem assocGet_mergeOnto : ∀ (b a : List (String × Value)) (k : String),
    nodupKeys b = true →
    assocGet (mergeOnto a b) k =
      (match assocGet b k with
      | none => assocGet a k
      | some w => some (match assocGet a k with | some u => merge u w | none => w)) := by
  intro b
  induction b with
  | nil =>
      intro a k _
      simp [mergeOnto_nil, assocGet]
  | cons e rest ih =>
      intro a k hnd
      obtain ⟨k1, w⟩ := e
      obtain ⟨h1, h2⟩ := nodupKeys_cons hnd
      rw [mergeOnto_cons, ih (mergeEntry a k1 w) k h2]
      by_cases hk : k1 = k
      · subst hk
        rw [assocGet_eq_none_of_hasKey_false h1]
        simp [assocGet, assocGet_mergeEntry_self]
      · simp [assocGet, hk, assocGet_mergeEntry_ne a k1 k w hk]

theorem getPath_merge_right : ∀ (p : List String) (b a : Value) (v : String),
    wf b = true → getPath b p = some (Value.scalar v) →
    getPath (merge a b) p = some (Value.scalar v)
  | [], b, a, v, _, hg => by
      have hb : b = Value.scalar v := by
        simpa [getPath] using hg
      subst hb
      rw [merge_scalar_right]
      rfl
  | k :: rest, b, a, v, hwf, hg => by
      cases b with
      | scalar s => simp [getPath] at hg
      | dict be =>
          obtain ⟨hnd, hent⟩ := wf_dict hwf
          cases a with
          | scalar s =>
              rw [merge_scalar_left]
              exact hg
          | dict ae =>
              simp only [getPath] at hg
              cases hga : assocGet be k with
              | none =>
                  rw [hga] at hg
                  exact absurd hg (by simp)
              | some w =>
                  rw [hga] at hg
                  have hw : wf w = true := wf_assocGet hent hga
                  rw [merge_dict_dict]
                  simp only [getPath]
                  rw [assocGet_mergeOnto be ae k hnd, hga]
                  cases hgb : assocGet ae k with
                  | none => exact hg
                  | some u => exact getPath_merge_right rest w u v hw hg

theorem getPath_of_avoids {b : Value} {p : List String} (h : Avoids b p) :
    getPath b p = none := by
  induction h with
  | missing es k rest hg => simp [getPath, hg]
  | step es k rest w hg _ ih => simp [getPath, hg, ih]

theorem getPath_merge_left {b : Value} {p : List String} (hav : Avoids b p) :
    wf b = true → ∀ a : Value, getPath (merge a b) p = getPath a p := by
  induction hav with
  | missing es k rest hg =>
      intro hwf a
      cases a with
      | scalar s =>
          rw [merge_scalar_left]
          simp [getPath, hg]
      | dict ae =>
          obtain ⟨hnd, hent⟩ := wf_dict hwf
          rw [merge_dict_dict]
          simp only [getPath]
          rw [assocGet_mergeOnto es ae k hnd, hg]
  | step es k rest w hg hav2 ih =>
      intro hwf a
      obtain ⟨hnd, hent⟩ := wf_dict hwf
      have hw : wf w = true := wf_assocGet hent hg
      cases a with
      | scalar s =>
          rw [merge_scalar_left]
          simp [getPath, hg, getPath_of_avoids hav2]
      | dict ae =>
          rw [merge_dict_dict]
          simp only [getPath]
          rw [assocGet_mergeOnto es ae k hnd, hg]
          cases hgb : assocGet ae k with
          | none => simp [getPath_of_avoids hav2]
          | some u => simpa using ih hw u

theorem avoids_setPathEntries : ∀ (q p : List String) (es : List (String × Value)) (v : String),
    pathRelated q p = false → p ≠ [] →
    Avoids (Value.dict es) p → Avoids (Value.dict (setPathEntries es q v)) p
  | [], p, es, v, h, _, _ => by simp [pathRelated, isPre] at h
  | _ :: _, [], _, _, _, hp, _ => absurd rfl hp
  | k1 :: q2, k :: p2, es, v, h, _, hav => by
      by_cases hk : k1 = k
      · subst hk
        have hq2 : isPre q2 p2 = false ∧ isPre p2 q2 = false := by
          simp [pathRelated, isPre] at h
          exact h
        have hq2ne : q2 ≠ [] := by
          intro hq
          subst hq
          simp [isPre] at hq2
        have hp2ne : p2 ≠ [] := by
          intro hq
          subst hq
          simp [isPre] at hq2
        have hrel2 : pathRelated q2 p2 = false := by
          simp [pathRelated, hq2.1, hq2.2]
        cases q2 with
        | nil => exact absurd rfl hq2ne
        | cons r1 rs =>
            have hout : setPathEntries es (k1 :: r1 :: rs) v =
                assocSet es k1 (Value.dict (setPathEntries (subEntries (assocGet es k1))
                  (r1 :: rs) v)) := rfl
            rw [hout]
            have hsub : Avoids (Value.dict (setPathEntries (subEntries (assocGet es k1))
                (r1 :: rs) v)) p2 := by
              have hbase : ∀ d : List (String × Value), Avoids (Value.dict d) p2 →
                  Avoids (Value.dict (setPathEntries d (r1 :: rs) v)) p2 :=
                fun d hd => avoids_setPathEntries (r1 :: rs) p2 d v hrel2 hp2ne hd
              have hempty : Avoids (Value.dict []) p2 := by
                cases p2 with
                | nil => exact absurd rfl hp2ne
                | cons s1 ss => exact Avoids.missing [] s1 ss rfl
              cases hav with
              | missing _ _ _ hg =>
                  rw [hg, subEntries_none]
                  exact hbase [] hempty
              | step _ _ _ w hg hav2 =>
                  cases w with
                  | scalar s => cases hav2
                  | dict d =>
                      rw [hg, subEntries_dict]
                      exact hbase d hav2
            exact Avoids.step _ k1 p2 _ (assocGet_assocSet_self es k1 _) hsub
      · have hget : ∀ X : Value, assocGet (assocSet es k1 X) k = assocGet es k :=
          fun X => assocGet_assocSet_ne es k1 k X hk
        cases hav with
        | missing _ _ _ hg =>
            cases q2 with
            | nil => exact Avoids.missing _ k p2 ((hget _).trans hg)
            | cons r1 rs => exact Avoids.missing _ k p2 ((hget _).trans hg)
        | step _ _ _ w hg hav2 =>
            cases q2 with
            | nil => exact Avoids.step _ k p2 w ((hget _).trans hg) hav2
            | cons r1 rs => exact Avoids.step _ k p2 w ((hget _).trans hg) hav2

theorem avoids_foldl (l : List (List String × String)) :
    ∀ (es : List (String × Value)) (p : List String), p ≠ [] →
      (∀ o ∈ l, pathRelated o.1 p = false) → Avoids (Value.dict es) p →
      Avoids (Value.dict (l.foldl applyOverride es)) p := by
  induction l with
  | nil =>
      intro es p _ _ hav
      exact hav
  | cons o rest ih =>
      intro es p hp h hav
      rw [List.foldl_cons]
      exact ih (applyOverride es o) p hp (fun o2 ho => h o2 (List.mem_cons_of_mem _ ho))
        (avoids_setPathEntries o.1 p es o.2 (h o (List.mem_cons_self _ _)) hp hav)

theorem avoids_fromPairs (l : List (List String × String)) (p : List String) (hp : p ≠ [])
    (h : ∀ o ∈ l, pathRelated o.1 p = false) : Avoids (fromPairs l) p := by
  have h0 : Avoids (Value.dict []) p := by
    cases p with
    | nil => exact absurd rfl hp
    | cons k rest => exact Avoids.missing [] k rest rfl
  exact avoids_foldl l [] p hp h h0

theorem load_pure_cons (schema raw : Value) (o : String) (rest : List String) :
    load (Except.ok raw) none pureMergeChk Except.ok schema (o :: rest) =
      Except.ok (resolveConf schema raw (o :: rest)) := rfl

theorem load_pure_nil (schema raw : Value) :
    load (Except.ok raw) none pureMergeChk Except.ok schema [] =
      Except.ok (merge schema raw) := rfl

/-- C1: for a configuration produced by a successful load (schema
defaults merged with the file document, then the dot-list overrides),
override precedence is last-write-wins: when an override list contains
two entries O1 then O2 addressing the same dotted key (O2 the last
write touching that key), the resolved configuration holds the value of
O2 at that key, whatever the file and the schema said there; and a
scalar the file document holds at a key no override touches survives
into the resolved configuration, whatever the schema default was
(file wins over schema default, overrides win over both). -/
theorem C1_override_precedence (schema raw : Value) (overrides : List String) (conf : Value)
    (hload : load (Except.ok raw) none pureMergeChk Except.ok schema overrides =
      Except.ok conf) :
    (∀ (l1 l2 l3 : List String) (o1 o2 : String) (p : List String) (v1 v2 : String),
        overrides = l1 ++ o1 :: l2 ++ o2 :: l3 →
        parseOverride o1 = (p, v1) → parseOverride o2 = (p, v2) → p ≠ [] →
        (∀ o ∈ l3, pathRelated (parseOverride o).1 p = false) →
        getPath conf p = some (Value.scalar v2)) ∧
    (∀ (q : List String) (w : String),
        wf raw = true → q ≠ [] → getPath raw q = some (Value.scalar w) →
        (∀ o ∈ overrides, pathRelated (parseOverride o).1 q = false) →
        getPath conf q = some (Value.scalar w)) := by
  constructor
  · intro l1 l2 l3 o1 o2 p v1 v2 hovs h1 h2 hp h3
    subst hovs
    have hx : (Except.ok (resolveConf schema raw (l1 ++ o1 :: l2 ++ o2 :: l3)) :
        Except PyErr Value) = Except.ok conf := by
      rw [← hload]
      cases l1 with
      | nil => rfl
      | cons x xs => rfl
    rw [← Except.ok.inj hx]
    have h3map : ∀ o2 ∈ l3.map parseOverride, pathRelated o2.1 p = false := by
      intro o' ho'
      rw [List.mem_map] at ho'
      obtain ⟨o, ho, rfl⟩ := ho'
      exact h3 o ho
    have hmap : (l1 ++ o1 :: l2 ++ o2 :: l3).map parseOverride =
        (l1.map parseOverride ++ (o1 :: l2).map parseOverride) ++
          (p, v2) :: l3.map parseOverride := by
      simp [h2, List.append_assoc]
    have hfd : getPath (from_dotlist (l1 ++ o1 :: l2 ++ o2 :: l3)) p =
        some (Value.scalar v2) := by
      show getPath (Value.dict (((l1 ++ o1 :: l2 ++ o2 :: l3).map
        parseOverride).foldl applyOverride [])) p = _
      rw [hmap]
      exact getPath_foldl_last _ _ p v2 [] hp h3map
    exact getPath_merge_right p (from_dotlist (l1 ++ o1 :: l2 ++ o2 :: l3))
      (merge schema raw) v2 (wf_fromPairs _) hfd
  · intro q w hwf hq hgr hno
    cases overrides with
    | nil =>
        rw [load_pure_nil] at hload
        rw [← Except.ok.inj hload]
        exact getPath_merge_right q raw schema w hwf hgr
    | cons o rest =>
        rw [load_pure_cons] at hload
        rw [← Except.ok.inj hload]
        have hnomap : ∀ o2 ∈ (o :: rest).map parseOverride, pathRelated o2.1 q = false := by
          intro o' ho'
          rw [List.mem_map] at ho'
          obtain ⟨o3, ho3, rfl⟩ := ho'
          exact hno o3 ho3
        have hav : Avoids (from_dotlist (o :: rest)) q :=
          avoids_fromPairs ((o :: rest).map parseOverride) q hq hnomap
        show getPath (merge (merge schema raw) (from_dotlist (o :: rest))) q = _
        rw [getPath_merge_left hav (wf_fromPairs _) (merge schema raw)]
        exact getPath_merge_right q raw schema w hwf hgr

/-- Witness for C1 at a concrete load: schema has no defaults, the file
sets a to 0 and b to 7, the overrides write a twice; the resolved
configuration holds the last override value at a and the file value at
b. -/
theorem C1_override_precedence_witness :
    getPath (resolveConf (Value.dict [])
      (Value.dict [("a", Value.scalar "0"), ("b", Value.scalar "7")]) ["a=1", "a=2"]) ["a"] =
      some (Value.scalar "2") ∧
    getPath (resolveConf (Value.dict [])
      (Value.dict [("a", Value.scalar "0"), ("b", Value.scalar "7")]) ["a=1", "a=2"]) ["b"] =
      some (Value.scalar "7") := by
  have h := C1_override_precedence (Value.dict [])
    (Value.dict [("a", Value.scalar "0"), ("b", Value.scalar "7")]) ["a=1", "a=2"]
    (resolveConf (Value.dict [])
      (Value.dict [("a", Value.scalar "0"), ("b", Value.scalar "7")]) ["a=1", "a=2"]) rfl
  constructor
  · exact h.1 [] [] [] "a=1" "a=2" ["a"] "1" "2" rfl (by decide) (by decide) (by decide)
      (by simp)
  · exact h.2 ["b"] "7" (by decide) (by decide) rfl (by decide)

/-- C2: during new and load, any error raised inside the try body that
is an OmegaConfBaseException (every merge and type-check error is) is
caught and re-raised as ConfigurationError carrying the message of the
underlying cause, while a filesystem error from parsing the file (a
FileNotFoundError is not an OmegaConfBaseException) propagates to the
caller unwrapped. -/
theorem C2_error_wrapping :
    (∀ (α : Type) (parse : Except PyErr Value) (key : Option String)
        (mergeChk : Value → Value → Except PyErr Value) (toObj : Value → Except PyErr α)
        (schema : Value) (overrides : List String) (e : PyErr),
        loadBody parse key mergeChk toObj schema overrides = Except.error e →
        e.isOmega = true →
        load parse key mergeChk toObj schema overrides =
          Except.error (PyErr.configurationError e.msg)) ∧
    (∀ (α : Type) (key : Option String) (mergeChk : Value → Value → Except PyErr Value)
        (toObj : Value → Except PyErr α) (schema : Value) (overrides : List String)
        (m : String),
        load (Except.error (PyErr.fsError m)) key mergeChk toObj schema overrides =
          Except.error (PyErr.fsError m)) ∧
    (∀ (α : Type) (mergeChk : Value → Value → Except PyErr Value)
        (toObj : Value → Except PyErr α) (schema : Value) (kwargs : Option Value) (e : PyErr),
        newBody mergeChk toObj schema kwargs = Except.error e →
        e.isOmega = true →
        new mergeChk toObj schema kwargs =
          Except.error (PyErr.configurationError e.msg)) := by
  refine ⟨?_, ?_, ?_⟩
  · intro α parse key mc tob schema ovs e hb he
    unfold load
    rw [hb]
    simp [catchOmega, he]
  · intro α key mc tob schema ovs m
    rfl
  · intro α mc tob schema kwargs e hb he
    unfold new
    rw [hb]
    simp [catchOmega, he]

/-- Witness for C2 at concrete oracles: a failing type-check during the
schema merge of load is re-raised as ConfigurationError with the same
message, a missing file propagates as a filesystem error, and a failing
merge inside new is re-raised as ConfigurationError too. -/
theorem C2_error_wrapping_witness :
    load (Except.ok (Value.dict [])) none
      (fun _ _ => Except.error (PyErr.omegaError "type mismatch")) Except.ok
      (Value.dict []) [] = Except.error (PyErr.configurationError "type mismatch") ∧
    load (Except.error (PyErr.fsError "No such file")) none pureMergeChk Except.ok
      (Value.dict []) [] = Except.error (PyErr.fsError "No such file") ∧
    new (fun _ _ => Except.error (PyErr.omegaError "bad kwargs")) Except.ok
      (Value.dict []) (some (Value.dict [])) =
      Except.error (PyErr.configurationError "bad kwargs") := by
  refine ⟨?_, ?_, ?_⟩
  · exact C2_error_wrapping.1 Value (Except.ok (Value.dict [])) none
      (fun _ _ => Except.error (PyErr.omegaError "type mismatch")) Except.ok
      (Value.dict []) [] (PyErr.omegaError "type mismatch") rfl rfl
  · exact C2_error_wrapping.2.1 Value none pureMergeChk Except.ok (Value.dict []) []
      "No such file"
  · exact C2_error_wrapping.2.2 Value
      (fun _ _ => Except.error (PyErr.omegaError "bad kwargs")) Except.ok
      (Value.dict []) (some (Value.dict [])) (PyErr.omegaError "bad kwargs") rfl rfl

/-- C3 counterexample: a load with key "training" on a document lacking
that top-level key does NOT surface an unwrapped lookup error: the
DictConfig lookup raises ConfigKeyError, which is an
OmegaConfBaseException, so the except clause of load catches it and the
caller receives a ConfigurationError, contrary to the claim. -/
theorem C3_counterexample :
    load (Except.ok (Value.dict [("a", Value.scalar "1")])) (some "training")
      pureMergeChk Except.ok (Value.dict []) [] =
      Except.error (PyErr.configurationError ("Missing key " ++ "training")) := rfl

/-- C3 amended: when load is called with a key absent from the parsed
document, the underlying lookup error (ConfigKeyError, an
OmegaConfBaseException subclass) is caught by the except clause and
re-raised as ConfigurationError carrying its message. -/
theorem C3_missing_key_wrapped (raw : List (String × Value)) (k : String) (schema : Value)
    (overrides : List String) (h : assocGet raw k = none) :
    load (Except.ok (Value.dict raw)) (some k) pureMergeChk Except.ok schema overrides =
      Except.error (PyErr.configurationError ("Missing key " ++ k)) := by
  have hgi : getItem (Value.dict raw) k =
      Except.error (PyErr.omegaError ("Missing key " ++ k)) := by
    simp [getItem, h]
  simp only [load, loadBody]
  rw [hgi]
  simp [catchOmega, PyErr.isOmega, PyErr.msg]

/-- Witness for the amended C3 theorem at a concrete document. -/
theorem C3_missing_key_wrapped_witness :
    load (Except.ok (Value.dict [("a", Value.scalar "1")])) (some "training")
      pureMergeChk Except.ok (Value.dict [("a", Value.scalar "0")]) ["a=2"] =
      Except.error (PyErr.configurationError ("Missing key " ++ "training")) :=
  C3_missing_key_wrapped [("a", Value.scalar "1")] "training"
    (Value.dict [("a", Value.scalar "0")]) ["a=2"] rfl

/-- C7: loading a file whose option_selector field holds a string outside
the declared member set of the OptionSelector enumeration fails with
ConfigurationError (the ValidationError of the enum conversion is an
OmegaConfBaseException, wrapped by the except clause of load), and any
option_selector value of a successfully loaded configuration is a
member of the declared set. -/
theorem C7_enum_validation :
    (∀ (schema raw : Value) (s : String),
        wf raw = true →
        getPath raw ["option_selector"] = some (Value.scalar s) →
        optionSelectorOfString s = none →
        load (Except.ok raw) none pureMergeChk toObjOptionSelector schema [] =
          Except.error (PyErr.configurationError
            ("Invalid value " ++ s ++ " for OptionSelector"))) ∧
    (∀ (parse : Except PyErr Value) (key : Option String)
        (mergeChk : Value → Value → Except PyErr Value) (schema : Value)
        (overrides : List String) (o : OptionSelector),
        load parse key mergeChk toObjOptionSelector schema overrides = Except.ok o →
        (o = OptionSelector.default ∨ o = OptionSelector.option_a ∨
          o = OptionSelector.option_b)) := by
  constructor
  · intro schema raw s hwf hg hnone
    have hm : getPath (merge schema raw) ["option_selector"] = some (Value.scalar s) :=
      getPath_merge_right ["option_selector"] raw schema s hwf hg
    have hto : toObjOptionSelector (merge schema raw) =
        Except.error (PyErr.omegaError ("Invalid value " ++ s ++ " for OptionSelector")) := by
      simp [toObjOptionSelector, hm, hnone]
    simp only [load, loadBody, pureMergeChk, update_legacy_settings, List.isEmpty_nil, if_true]
    rw [hto]
    simp [catchOmega, PyErr.isOmega, PyErr.msg]
  · intro parse key mc schema ovs o _
    cases o
    · exact Or.inl rfl
    · exact Or.inr (Or.inl rfl)
    · exact Or.inr (Or.inr rfl)

/-- Witness for C7: a file setting option_selector to bogus fails with
the wrapped ConfigurationError, and a load that succeeds (file sets
option_selector to default) yields a member of the declared set. -/
theorem C7_enum_validation_witness :
    load (Except.ok (Value.dict [("option_selector", Value.scalar "bogus")])) none
      pureMergeChk toObjOptionSelector
      (Value.dict [("option_selector", Value.scalar "default")]) [] =
      Except.error (PyErr.configurationError
        ("Invalid value " ++ "bogus" ++ " for OptionSelector")) ∧
    (OptionSelector.default = OptionSelector.default ∨
      OptionSelector.default = OptionSelector.option_a ∨
      OptionSelector.default = OptionSelector.option_b) := by
  constructor
  · exact C7_enum_validation.1 (Value.dict [("option_selector", Value.scalar "default")])
      (Value.dict [("option_selector", Value.scalar "bogus")]) "bogus"
      (by decide) rfl rfl
  · have hm : merge (Value.dict [])
        (Value.dict [("option_selector", Value.scalar "default")]) =
        Value.dict [("option_selector", Value.scalar "default")] := by
      rw [merge_dict_dict, mergeOnto_cons, mergeEntry_nil, mergeOnto_nil]
    have hok : load (Except.ok (Value.dict [("option_selector", Value.scalar "default")]))
        none pureMergeChk toObjOptionSelector (Value.dict []) [] =
        Except.ok OptionSelector.default := by
      simp only [load, loadBody, pureMergeChk, update_legacy_settings, List.isEmpty_nil,
        if_true, hm]
      simp [toObjOptionSelector, getPath, assocGet, optionSelectorOfString, catchOmega]
    exact C7_enum_validation.2 (Except.ok
      (Value.dict [("option_selector", Value.scalar "default")])) none pureMergeChk
      (Value.dict []) [] OptionSelector.default hok

end Configs
